import Mathlib

/-!
Verification of the maat-core constrained-optimization framework.

The embedding follows `src/maat_core/core.py` and `src/maat_core/diagnostics.py`.
Python floats are modelled as exact rationals (ℚ); opaque caller states are a
type parameter `State`; the optional `complexity` attribute read by
`getattr(state, "complexity", 0.0)` is modelled by an attribute-lookup
function `complexityOf : State → Option ℚ` (`none` = the state exposes no
complexity attribute).  The external scipy solvers (`minimize`,
`dual_annealing`) are modelled as abstract function parameters; the global
numpy RNG state mutated by `np.random.seed` is threaded explicitly as an
integer.
-/

namespace Maat

/-- A safety constraint (`core.py`, `Constraint`): the function must return a
value ≥ 0 when the constraint is satisfied; if it is negative, the constraint
is violated by `-value`. -/
structure Constraint (State : Type) where
  name : String
  func : State → ℚ
  weight : ℚ := 1

/-- A weighted scalar function over a state (`core.py`, `Field`). -/
structure Field (State : Type) where
  name : String
  func : State → ℚ
  weight : ℚ := 1

/-- `Field.value`: `float(self.func(state)) * float(self.weight)`. -/
def Field.value {State : Type} (f : Field State) (state : State) : ℚ :=
  f.func state * f.weight

/-- The `MaatCore` instance data set up by `__init__`. -/
structure MaatCore (State : Type) where
  fields : List (Field State)
  constraints : List (Constraint State)
  safety_lambda : ℚ := 1000000
  occam_lambda : ℚ := 0

/-- `MaatCore.integrate`: sum of field values, plus Occam regularization
`occam_lambda * getattr(state, "complexity", 0.0)`, plus the accumulated
constraint penalty `safety_lambda * (v * v) * weight` with
`v = max(0.0, -margin)`. -/
def MaatCore.integrate {State : Type} (m : MaatCore State)
    (complexityOf : State → Option ℚ) (state : State) : ℚ :=
  let total := (m.fields.map (fun f => f.value state)).sum
  let complexity := (complexityOf state).getD 0
  let occam_penalty := m.occam_lambda * complexity
  let penalty := m.constraints.foldl
    (fun acc c =>
      let margin := c.func state
      let v := max 0 (-margin)
      acc + m.safety_lambda * (v * v) * c.weight) 0
  total + occam_penalty + penalty

/-- The status string literal used by `constraint_report` for a satisfied
constraint. -/
def statusOK : String := "OK"

/-- The status string literal used by `constraint_report` for a violated
constraint. -/
def statusVIOLATION : String := "VIOLATION"

/-- Round-half-to-even of a rational to an integer: the rounding applied by
Python when formatting the exact value of a number with a fixed number of
decimal places. -/
def roundHalfEven (q : ℚ) : ℤ :=
  if q - ⌊q⌋ < 1/2 then ⌊q⌋
  else if 1/2 < q - ⌊q⌋ then ⌊q⌋ + 1
  else if ⌊q⌋ % 2 = 0 then ⌊q⌋ else ⌊q⌋ + 1

/-- The number displayed by the Python format specifier `.4f`: the argument
rounded (half-to-even) to four decimal places. -/
def fmt4 (q : ℚ) : ℚ := (roundHalfEven (q * 10000) : ℚ) / 10000

/-- The numeric and nominal content of the violation hint string
`f-string: Adjust system by at least (abs(margin) formatted with .4f)
to satisfy (c.name)`. -/
structure Hint where
  magnitude : ℚ
  target : String
  deriving DecidableEq, Inhabited

/-- One record of the list returned by `MaatCore.constraint_report`. -/
structure ReportEntry where
  constraint : String
  margin : ℚ
  status : String
  hint : Option Hint
  deriving DecidableEq, Inhabited

/-- `MaatCore.constraint_report`: one record per constraint, in order. -/
def MaatCore.constraint_report {State : Type} (m : MaatCore State)
    (state : State) : List ReportEntry :=
  m.constraints.map fun c =>
    let margin := c.func state
    let status := if 0 ≤ margin then statusOK else statusVIOLATION
    let hint : Option Hint :=
      if margin < 0 then some ⟨fmt4 (abs margin), c.name⟩ else none
    { constraint := c.name, margin := margin, status := status, hint := hint }

/-- `FieldReport` from `diagnostics.py`. -/
structure FieldReport where
  name : String
  weight : ℚ
  raw_value : ℚ
  weighted_value : ℚ
  deriving DecidableEq, Inhabited

/-- `Diagnostics.report`: per-field raw and weighted values, in input order. -/
def Diagnostics.report {State : Type} (fields : List (Field State))
    (state : State) : List FieldReport :=
  fields.map fun f =>
    let raw := f.func state
    let weighted := raw * f.weight
    { name := f.name, weight := f.weight, raw_value := raw,
      weighted_value := weighted }

/-- The shapes `x0` may take in `seek`: a bare number, or a one-dimensional
array/sequence. -/
inductive X0 where
  | scalar (x : ℚ)
  | vector (xs : List ℚ)

/-- `_is_scalar_like` from `seek`: a bare number, or a sequence whose array
form has a single element. -/
def X0.isScalarLike : X0 → Bool
  | X0.scalar _ => true
  | X0.vector xs => xs.length == 1

/-- `np.atleast_1d(np.asarray(x0, dtype=float))`. -/
def X0.toArr : X0 → List ℚ
  | X0.scalar x => [x]
  | X0.vector xs => xs

/-- `n_dim = int(x0_arr.size)`. -/
def X0.nDim (x0 : X0) : ℕ := x0.toArr.length

/-- The argument handed to the caller's state function: a plain real in
scalar mode, the full candidate point in vector mode. -/
inductive Point where
  | scalar (x : ℚ)
  | vector (xs : List ℚ)

/-- The `objective` closure built inside `seek`: in scalar-compat scalar mode
the state function receives `float(x_vec[0])`, otherwise the full vector. -/
def MaatCore.objective {State : Type} (m : MaatCore State)
    (complexityOf : State → Option ℚ) (state_fn : Point → State)
    (x0_is_scalar : Bool) (scalar_compat : Bool) (x_arr : List ℚ) : ℚ :=
  if scalar_compat && x0_is_scalar then
    m.integrate complexityOf (state_fn (Point.scalar x_arr.headI))
  else
    m.integrate complexityOf (state_fn (Point.vector x_arr))

/-- Message of the `ValueError` raised for an empty bounds list. -/
def errEmptyBounds : String := "bounds must contain at least one (lo, hi) tuple"

/-- Message of the `ValueError` raised for a bounds/dimension mismatch. -/
def errBoundsLen : String := "bounds length must match x0 dimension"

/-- The bounds-broadcast step of `seek`: a single `(lo, hi)` pair is repeated
for every dimension when `x0` is multi-dimensional. -/
def broadcastBounds (bounds : List (ℚ × ℚ)) (n_dim : ℕ) : List (ℚ × ℚ) :=
  if bounds.length = 1 ∧ 1 < n_dim then List.replicate n_dim bounds.headI
  else bounds

/-- The bounds configurations `seek` accepts without raising. -/
def boundsOk (bounds : List (ℚ × ℚ)) (n : ℕ) : Bool :=
  decide (bounds.length ≠ 0 ∧
    (bounds.length = n ∨ (bounds.length = 1 ∧ 1 < n)))

/-- `np.random.seed(int(seed))` when a seed is given: the global RNG state
becomes a deterministic function of the seed; otherwise it is left as is. -/
def seedTo (seed : Option ℤ) (rng : ℤ) : ℤ :=
  match seed with
  | some k => k
  | none => rng

/-- The observable outcome of a `seek` call: the returned value (or the
raised configuration error), the instance data afterwards, and the global
RNG state afterwards. -/
structure SeekOutcome (State R : Type) where
  result : Except String R
  core : MaatCore State
  rng : ℤ

/-- `MaatCore.seek`.  The two delegated scipy solvers are abstract
parameters: `localSolver` models `scipy.optimize.minimize(objective, x0,
bounds, method, maxiter)` and `annealSolver` models
`scipy.optimize.dual_annealing(objective, bounds, initial_temp, maxiter)`
run against a given global RNG state. -/
def MaatCore.seek {State R : Type} (m : MaatCore State)
    (localSolver : (List ℚ → ℚ) → List ℚ → List (ℚ × ℚ) → ℕ → String → R)
    (annealSolver : (List ℚ → ℚ) → List (ℚ × ℚ) → ℚ → ℕ → ℤ → R)
    (complexityOf : State → Option ℚ) (state_fn : Point → State) (x0 : X0)
    (S : ℚ) (use_annealing : Bool) (bounds : List (ℚ × ℚ)) (maxiter : ℕ)
    (method : String) (seed : Option ℤ) (scalar_compat : Bool) (rng : ℤ) :
    SeekOutcome State R :=
  let x0_is_scalar := x0.isScalarLike
  let x0_arr := x0.toArr
  let n_dim := x0.nDim
  if bounds.length = 0 then
    ⟨Except.error errEmptyBounds, m, rng⟩
  else
    let b := broadcastBounds bounds n_dim
    if b.length ≠ n_dim then
      ⟨Except.error errBoundsLen, m, rng⟩
    else
      let obj := m.objective complexityOf state_fn x0_is_scalar scalar_compat
      if use_annealing then
        let rng2 := seedTo seed rng
        ⟨Except.ok (annealSolver obj b (10 * (1 + S)) maxiter rng2), m, rng2⟩
      else
        ⟨Except.ok (localSolver obj x0_arr b maxiter method), m, rng⟩

/-- `integrate` in method form: the Python body reads `self` but never
assigns to it, so the instance data is returned unchanged. -/
def MaatCore.integrateRun {State : Type} (m : MaatCore State)
    (complexityOf : State → Option ℚ) (state : State) :
    ℚ × MaatCore State :=
  (m.integrate complexityOf state, m)

/-- `constraint_report` in method form: reads `self`, never assigns. -/
def MaatCore.constraint_reportRun {State : Type} (m : MaatCore State)
    (state : State) : List ReportEntry × MaatCore State :=
  (m.constraint_report state, m)

/-! ### Concrete instances used in witnesses and counterexamples -/

/-- A state type with no complexity attribute. -/
def cfU : Unit → Option ℚ := fun _ => none

/-- Complexity attribute of the two-point state space `Bool`:
0 for `false`, 1 for `true`. -/
def cfB : Bool → Option ℚ := fun b => some (if b then 1 else 0)

def wC10core : MaatCore Unit := ⟨[], [⟨"w10", fun _ => -1, 1⟩], 2, 0⟩

def wC4core : MaatCore Unit := ⟨[], [⟨"w4", fun _ => -1, 1⟩], 5, 0⟩

/-- A violated constraint whose weight is 0: its penalty vanishes for every
`safety_lambda`. -/
def cxC4core : MaatCore Unit := ⟨[], [⟨"z4", fun _ => -1, 0⟩], 0, 0⟩

def wC5core : MaatCore Bool := ⟨[], [], 0, 1⟩

/-- No fields, one constraint that is badly violated exactly on the
lower-complexity state `false`. -/
def cxC5core : MaatCore Bool :=
  ⟨[], [⟨"g5", fun b => if b then 0 else -2, 1⟩], 1, 1⟩

/-- One satisfied constraint and one violated constraint whose margin is an
exact multiple of 1/10000. -/
def wC3core : MaatCore Unit :=
  ⟨[], [⟨"ok3", fun _ => 3, 1⟩, ⟨"bad3", fun _ => -(1/4), 1⟩], 1, 0⟩

/-- A violated constraint whose margin magnitude 1/64 = 0.015625 is not a
multiple of 1/10000, so the 4-decimal hint display rounds it. -/
def cxC3core : MaatCore Unit :=
  ⟨[], [⟨"r3", fun _ => -(1/64), 1⟩], 1000000, 0⟩

def wC7field : Field ℚ := ⟨"f7", fun x => x + 1, 3⟩

def wC9core : MaatCore Unit := ⟨[], [], 1, 0⟩

def wC2core : MaatCore Unit := ⟨[], [], 1, 0⟩

def sfW : Point → Unit := fun _ => ()

def sf2W : Point → Unit := fun _ => ()

def lsW : (List ℚ → ℚ) → List ℚ → List (ℚ × ℚ) → ℕ → String → ℕ :=
  fun _ _ _ _ _ => 1

def ls2W : (List ℚ → ℚ) → List ℚ → List (ℚ × ℚ) → ℕ → String → ℕ :=
  fun _ _ _ _ _ => 2

def asW : (List ℚ → ℚ) → List (ℚ × ℚ) → ℚ → ℕ → ℤ → ℕ :=
  fun _ _ _ _ _ => 3

def as2W : (List ℚ → ℚ) → List (ℚ × ℚ) → ℚ → ℕ → ℤ → ℕ :=
  fun _ _ _ _ _ => 4

def methW : String := "L-BFGS-B"

/-- A local solver that simply evaluates the objective at the start point:
used to observe which argument the state function receives. -/
def evalLs : (List ℚ → ℚ) → List ℚ → List (ℚ × ℚ) → ℕ → String → ℚ :=
  fun obj xa _ _ _ => obj xa

/-- A state function that records which calling convention was used:
state 0 for a plain real, state 1 for a full vector. -/
def sfC6 : Point → ℚ := fun p =>
  match p with
  | Point.scalar _ => 0
  | Point.vector _ => 1

def cfQ : ℚ → Option ℚ := fun _ => none

def cxC6core : MaatCore ℚ := ⟨[⟨"f6", fun s => s, 1⟩], [], 0, 0⟩

def wC6core : MaatCore ℚ := ⟨[⟨"w6", fun s => s, 1⟩], [], 0, 0⟩

/-! ### Helper lemmas -/

theorem foldl_add_map {α : Type} (g : α → ℚ) (l : List α) (a : ℚ) :
    l.foldl (fun acc x => acc + g x) a = a + (l.map g).sum := by
  induction l generalizing a with
  | nil => simp
  | cons x l ih =>
    simp only [List.foldl_cons, List.map_cons, List.sum_cons, ih]
    ring

theorem sum_map_nonneg {α : Type} (g : α → ℚ) (l : List α)
    (h : ∀ x ∈ l, 0 ≤ g x) : 0 ≤ (l.map g).sum := by
  induction l with
  | nil => simp
  | cons x l ih =>
    simp only [List.map_cons, List.sum_cons]
    have hx := h x (by simp)
    have hl := ih (fun y hy => h y (by simp [hy]))
    linarith

theorem sum_map_pos {α : Type} (g : α → ℚ) (l : List α)
    (h0 : ∀ x ∈ l, 0 ≤ g x) (h1 : ∃ x ∈ l, 0 < g x) :
    0 < (l.map g).sum := by
  induction l with
  | nil => simp at h1
  | cons x l ih =>
    simp only [List.map_cons, List.sum_cons]
    obtain ⟨y, hy, hgy⟩ := h1
    rcases List.mem_cons.mp hy with rfl | hyl
    · have hl := sum_map_nonneg g l (fun z hz => h0 z (by simp [hz]))
      linarith
    · have hx := h0 x (by simp)
      have hl := ih (fun z hz => h0 z (by simp [hz])) ⟨y, hyl, hgy⟩
      linarith

theorem sum_map_congr {α : Type} (f g : α → ℚ) (l : List α)
    (h : ∀ x ∈ l, f x = g x) : (l.map f).sum = (l.map g).sum := by
  induction l with
  | nil => rfl
  | cons x l ih =>
    simp only [List.map_cons, List.sum_cons, h x (by simp),
      ih (fun y hy => h y (by simp [hy]))]

theorem mul_sum_map {α : Type} (b : ℚ) (g : α → ℚ) (l : List α) :
    (l.map (fun x => b * g x)).sum = b * (l.map g).sum := by
  induction l with
  | nil => simp
  | cons x l ih =>
    simp only [List.map_cons, List.sum_cons, ih]
    ring

/-- Canonical closed form of `integrate`: fields, Occam term, penalty sum. -/
theorem integrate_eq {State : Type} (m : MaatCore State)
    (cf : State → Option ℚ) (s : State) :
    m.integrate cf s =
      (m.fields.map (fun f => f.value s)).sum
        + m.occam_lambda * (cf s).getD 0
        + (m.constraints.map (fun c =>
            m.safety_lambda * c.weight * (max 0 (-(c.func s))) ^ 2)).sum := by
  unfold MaatCore.integrate
  rw [foldl_add_map (fun c =>
    m.safety_lambda * (max 0 (-(c.func s)) * max 0 (-(c.func s))) * c.weight)
    m.constraints 0]
  rw [zero_add]
  dsimp only
  congr 1
  exact sum_map_congr _ _ _ (fun c _ => by ring)

theorem roundHalfEven_intCast (n : ℤ) : roundHalfEven (n : ℚ) = n := by
  unfold roundHalfEven
  rw [Int.floor_intCast, sub_self]
  norm_num

/-- `fmt4` is the identity exactly on multiples of `1/10000`. -/
theorem fmt4_eq_self (q : ℚ) (h : (q * 10000).den = 1) : fmt4 q = q := by
  have h1 : ((q * 10000).num : ℚ) = q * 10000 := by
    rw [← Rat.den_eq_one_iff]
    exact h
  unfold fmt4
  rw [← h1, roundHalfEven_intCast, h1]
  field_simp

theorem broadcast_length (bounds : List (ℚ × ℚ)) (n : ℕ)
    (h : boundsOk bounds n = true) : (broadcastBounds bounds n).length = n := by
  simp only [boundsOk, decide_eq_true_eq] at h
  obtain ⟨h0, h1⟩ := h
  unfold broadcastBounds
  split_ifs with hc
  · simp
  · rcases h1 with h1 | h1
    · exact h1
    · exact absurd h1 hc

/-- With acceptable bounds, local-mode `seek` hands the objective, the
normalized `x0` and the (possibly broadcast) bounds to the local solver. -/
theorem seek_valid_local {State R : Type} (m : MaatCore State)
    (ls : (List ℚ → ℚ) → List ℚ → List (ℚ × ℚ) → ℕ → String → R)
    (as : (List ℚ → ℚ) → List (ℚ × ℚ) → ℚ → ℕ → ℤ → R)
    (cf : State → Option ℚ) (sf : Point → State) (x0 : X0) (S : ℚ)
    (bounds : List (ℚ × ℚ)) (mi : ℕ) (meth : String) (seed : Option ℤ)
    (sc : Bool) (rng : ℤ) (h : boundsOk bounds x0.nDim = true) :
    m.seek ls as cf sf x0 S false bounds mi meth seed sc rng =
      ⟨Except.ok (ls (m.objective cf sf x0.isScalarLike sc) x0.toArr
          (broadcastBounds bounds x0.nDim) mi meth), m, rng⟩ := by
  have hlen := broadcast_length bounds x0.nDim h
  have h0 : bounds.length ≠ 0 := by
    simp only [boundsOk, decide_eq_true_eq] at h
    exact h.1
  unfold MaatCore.seek
  rw [if_neg h0, if_neg (by rw [hlen]; simp)]
  rfl

/-- With acceptable bounds, annealing-mode `seek` seeds the RNG and hands the
objective and the (possibly broadcast) bounds to the annealing solver. -/
theorem seek_valid_anneal {State R : Type} (m : MaatCore State)
    (ls : (List ℚ → ℚ) → List ℚ → List (ℚ × ℚ) → ℕ → String → R)
    (as : (List ℚ → ℚ) → List (ℚ × ℚ) → ℚ → ℕ → ℤ → R)
    (cf : State → Option ℚ) (sf : Point → State) (x0 : X0) (S : ℚ)
    (bounds : List (ℚ × ℚ)) (mi : ℕ) (meth : String) (seed : Option ℤ)
    (sc : Bool) (rng : ℤ) (h : boundsOk bounds x0.nDim = true) :
    m.seek ls as cf sf x0 S true bounds mi meth seed sc rng =
      ⟨Except.ok (as (m.objective cf sf x0.isScalarLike sc)
          (broadcastBounds bounds x0.nDim) (10 * (1 + S)) mi
          (seedTo seed rng)), m, seedTo seed rng⟩ := by
  have hlen := broadcast_length bounds x0.nDim h
  have h0 : bounds.length ≠ 0 := by
    simp only [boundsOk, decide_eq_true_eq] at h
    exact h.1
  unfold MaatCore.seek
  rw [if_neg h0, if_neg (by rw [hlen]; simp)]
  rfl

/-- With unacceptable bounds, `seek` raises before consulting either solver
or the state function: the outcome is a configuration error fixed by the
bounds length alone. -/
theorem seek_invalid {State R : Type} (m : MaatCore State)
    (ls : (List ℚ → ℚ) → List ℚ → List (ℚ × ℚ) → ℕ → String → R)
    (as : (List ℚ → ℚ) → List (ℚ × ℚ) → ℚ → ℕ → ℤ → R)
    (cf : State → Option ℚ) (sf : Point → State) (x0 : X0) (S : ℚ)
    (ua : Bool) (bounds : List (ℚ × ℚ)) (mi : ℕ) (meth : String)
    (seed : Option ℤ) (sc : Bool) (rng : ℤ)
    (h : boundsOk bounds x0.nDim = false) :
    m.seek ls as cf sf x0 S ua bounds mi meth seed sc rng =
      ⟨Except.error
          (if bounds.length = 0 then errEmptyBounds else errBoundsLen),
        m, rng⟩ := by
  simp only [boundsOk, decide_eq_false_iff_not] at h
  by_cases h0 : bounds.length = 0
  · unfold MaatCore.seek
    rw [if_pos h0, if_pos h0]
  · have hOr : ¬(bounds.length = x0.nDim ∨
        (bounds.length = 1 ∧ 1 < x0.nDim)) :=
      fun hor => h ⟨h0, hor⟩
    have hne : bounds.length ≠ x0.nDim := fun he => hOr (Or.inl he)
    have hnb : ¬(bounds.length = 1 ∧ 1 < x0.nDim) := fun hb => hOr (Or.inr hb)
    have hbb : broadcastBounds bounds x0.nDim = bounds := by
      unfold broadcastBounds
      exact if_neg hnb
    unfold MaatCore.seek
    rw [if_neg h0, if_neg h0, hbb, if_pos hne]

/-! ### Claim theorems -/

/-- C1: for every state, `integrate(state)` equals the sum over fields of
`field.value(state)` (i.e. `func(state) * weight`), plus `occam_lambda`
times the state's complexity attribute (taken as 0 when the state exposes
none), plus the sum over constraints of
`safety_lambda * weight * max(0, -margin)^2` where `margin = func(state)`. -/
theorem c1_integrate_formula {State : Type} (m : MaatCore State)
    (cf : State → Option ℚ) (s : State) :
    m.integrate cf s =
      (m.fields.map (fun f => f.value s)).sum
        + m.occam_lambda * (cf s).getD 0
        + (m.constraints.map (fun c =>
            m.safety_lambda * c.weight * (max 0 (-(c.func s))) ^ 2)).sum :=
  integrate_eq m cf s

/-- C10: if `safety_lambda ≥ 0` and every constraint weight is ≥ 0 then the
constraint-penalty term is nonnegative, so `integrate(state)` is at least
the sum of field values plus `occam_lambda` times the state's complexity. -/
theorem c10_penalty_nonneg {State : Type} (m : MaatCore State)
    (cf : State → Option ℚ) (s : State)
    (hs : 0 ≤ m.safety_lambda)
    (hw : ∀ c ∈ m.constraints, 0 ≤ c.weight) :
    (m.fields.map (fun f => f.value s)).sum
        + m.occam_lambda * (cf s).getD 0 ≤ m.integrate cf s := by
  rw [integrate_eq]
  have hp : 0 ≤ (m.constraints.map (fun c =>
      m.safety_lambda * c.weight * (max 0 (-(c.func s))) ^ 2)).sum :=
    sum_map_nonneg _ _ (fun c hc =>
      mul_nonneg (mul_nonneg hs (hw c hc)) (sq_nonneg _))
  linarith

/-- Witness for C10 at a concrete instance. -/
theorem c10_witness :
    0 ≤ wC10core.safety_lambda ∧
    (∀ c ∈ wC10core.constraints, 0 ≤ c.weight) ∧
    (wC10core.fields.map (fun f => f.value ())).sum
        + wC10core.occam_lambda * (cfU ()).getD 0 ≤
      wC10core.integrate cfU () :=
  ⟨by norm_num [wC10core], by norm_num [wC10core],
    c10_penalty_nonneg wC10core cfU () (by norm_num [wC10core])
      (by norm_num [wC10core])⟩

/-- C4 (amended): for any state with at least one violated constraint of
strictly positive weight, and all constraint weights nonnegative,
`integrate(state)` is strictly increasing in `safety_lambda` with all other
instance data fixed. -/
theorem c4_safety_strict_mono {State : Type} (m : MaatCore State)
    (cf : State → Option ℚ) (s : State) (a b : ℚ)
    (hw : ∀ c ∈ m.constraints, 0 ≤ c.weight)
    (hv : ∃ c ∈ m.constraints, c.func s < 0 ∧ 0 < c.weight)
    (hab : a < b) :
    ({m with safety_lambda := a}).integrate cf s <
      ({m with safety_lambda := b}).integrate cf s := by
  rw [integrate_eq, integrate_eq]
  dsimp only
  have ha : (m.constraints.map (fun c =>
        a * c.weight * (max 0 (-(c.func s))) ^ 2)).sum =
      a * (m.constraints.map (fun c =>
        c.weight * (max 0 (-(c.func s))) ^ 2)).sum := by
    rw [← mul_sum_map]
    exact sum_map_congr _ _ _ (fun c _ => by ring)
  have hb2 : (m.constraints.map (fun c =>
        b * c.weight * (max 0 (-(c.func s))) ^ 2)).sum =
      b * (m.constraints.map (fun c =>
        c.weight * (max 0 (-(c.func s))) ^ 2)).sum := by
    rw [← mul_sum_map]
    exact sum_map_congr _ _ _ (fun c _ => by ring)
  have hS : 0 < (m.constraints.map (fun c =>
      c.weight * (max 0 (-(c.func s))) ^ 2)).sum := by
    apply sum_map_pos
    · intro c hc
      exact mul_nonneg (hw c hc) (sq_nonneg _)
    · obtain ⟨c, hc, hneg, hwpos⟩ := hv
      refine ⟨c, hc, ?_⟩
      have hvpos : 0 < max 0 (-(c.func s)) :=
        lt_max_iff.mpr (Or.inr (by linarith))
      exact mul_pos hwpos (pow_pos hvpos 2)
  rw [ha, hb2]
  exact add_lt_add_left (mul_lt_mul_of_pos_right hab hS) _

/-- Witness for C4 at a concrete instance. -/
theorem c4_witness :
    (∃ c ∈ wC4core.constraints, c.func () < 0 ∧ 0 < c.weight) ∧ (0:ℚ) < 1 ∧
    ({wC4core with safety_lambda := 0}).integrate cfU () <
      ({wC4core with safety_lambda := 1}).integrate cfU () :=
  ⟨by norm_num [wC4core], by norm_num,
    c4_safety_strict_mono wC4core cfU () 0 1 (by norm_num [wC4core])
      (by norm_num [wC4core]) (by norm_num)⟩

/-- C4 counterexample: with one violated constraint of weight 0,
`integrate` is constant in `safety_lambda`, so the claim as stated (which
requires no weight hypothesis) fails. -/
theorem c4_cex :
    (∃ c ∈ cxC4core.constraints, c.func () < 0) ∧ (0:ℚ) < 1 ∧
    ¬ (({cxC4core with safety_lambda := 0}).integrate cfU () <
        ({cxC4core with safety_lambda := 1}).integrate cfU ()) := by
  refine ⟨by norm_num [cxC4core], by norm_num, ?_⟩
  norm_num [MaatCore.integrate, Field.value, cxC4core, cfU]

/-- C5 (amended): for two states with identical field values, identical
constraint margins, and differing complexity, and `occam_lambda > 0`, the
lower-complexity state yields a strictly lower `integrate` value. -/
theorem c5_occam_strict {State : Type} (m : MaatCore State)
    (cf : State → Option ℚ) (s1 s2 : State)
    (hf : ∀ f ∈ m.fields, f.func s1 = f.func s2)
    (hc : ∀ c ∈ m.constraints, c.func s1 = c.func s2)
    (hocc : 0 < m.occam_lambda)
    (hcomp : (cf s1).getD 0 < (cf s2).getD 0) :
    m.integrate cf s1 < m.integrate cf s2 := by
  rw [integrate_eq, integrate_eq]
  have hF : (m.fields.map (fun f => f.value s1)).sum =
      (m.fields.map (fun f => f.value s2)).sum :=
    sum_map_congr _ _ _ (fun f hfm => by unfold Field.value; rw [hf f hfm])
  have hC : (m.constraints.map (fun c =>
        m.safety_lambda * c.weight * (max 0 (-(c.func s1))) ^ 2)).sum =
      (m.constraints.map (fun c =>
        m.safety_lambda * c.weight * (max 0 (-(c.func s2))) ^ 2)).sum :=
    sum_map_congr _ _ _ (fun c hcm => by rw [hc c hcm])
  rw [hF, hC]
  have h2 := mul_lt_mul_of_pos_left hcomp hocc
  linarith

/-- Witness for C5 at a concrete instance. -/
theorem c5_witness :
    0 < wC5core.occam_lambda ∧ (cfB false).getD 0 < (cfB true).getD 0 ∧
    wC5core.integrate cfB false < wC5core.integrate cfB true :=
  ⟨by norm_num [wC5core], by norm_num [cfB],
    c5_occam_strict wC5core cfB false true (by simp [wC5core])
      (by simp [wC5core]) (by norm_num [wC5core]) (by norm_num [cfB])⟩

/-- C5 counterexample: the claim as stated says nothing about constraints;
a constraint that is violated only on the lower-complexity state makes the
lower-complexity state score strictly higher. -/
theorem c5_cex :
    (∀ f ∈ cxC5core.fields, f.func false = f.func true) ∧
    0 < cxC5core.occam_lambda ∧
    (cfB false).getD 0 < (cfB true).getD 0 ∧
    ¬ (cxC5core.integrate cfB false < cxC5core.integrate cfB true) := by
  refine ⟨by simp [cxC5core], by norm_num [cxC5core], by norm_num [cfB], ?_⟩
  norm_num [MaatCore.integrate, Field.value, cxC5core, cfB]

/-- C3 (amended): `constraint_report` returns one record per constraint in
declaration order; margin ≥ 0 gives status "OK" and no hint; margin < 0
gives status "VIOLATION" and a hint whose stated adjustment magnitude is
`|margin|` rounded to four decimal places (half-to-even), which equals
`|margin|` exactly whenever `|margin|` is a multiple of 1/10000. -/
theorem c3_constraint_report {State : Type} (m : MaatCore State) (s : State) :
    (m.constraint_report s).length = m.constraints.length ∧
    ∀ i : ℕ, ∀ h : i < m.constraints.length,
      ∃ h2 : i < (m.constraint_report s).length,
        ((m.constraint_report s).get ⟨i, h2⟩).constraint =
            (m.constraints.get ⟨i, h⟩).name ∧
        ((m.constraint_report s).get ⟨i, h2⟩).margin =
            (m.constraints.get ⟨i, h⟩).func s ∧
        (0 ≤ (m.constraints.get ⟨i, h⟩).func s →
          ((m.constraint_report s).get ⟨i, h2⟩).status = statusOK ∧
          ((m.constraint_report s).get ⟨i, h2⟩).hint = none) ∧
        ((m.constraints.get ⟨i, h⟩).func s < 0 →
          ((m.constraint_report s).get ⟨i, h2⟩).status = statusVIOLATION ∧
          ((m.constraint_report s).get ⟨i, h2⟩).hint =
            some ⟨fmt4 (abs ((m.constraints.get ⟨i, h⟩).func s)),
              (m.constraints.get ⟨i, h⟩).name⟩ ∧
          ((abs ((m.constraints.get ⟨i, h⟩).func s) * 10000).den = 1 →
            ((m.constraint_report s).get ⟨i, h2⟩).hint =
              some ⟨abs ((m.constraints.get ⟨i, h⟩).func s),
                (m.constraints.get ⟨i, h⟩).name⟩)) := by
  constructor
  · simp [MaatCore.constraint_report]
  · intro i h
    have h2 : i < (m.constraint_report s).length := by
      simpa [MaatCore.constraint_report] using h
    refine ⟨h2, ?_⟩
    have hget : (m.constraint_report s).get ⟨i, h2⟩ =
        { constraint := (m.constraints.get ⟨i, h⟩).name,
          margin := (m.constraints.get ⟨i, h⟩).func s,
          status := if 0 ≤ (m.constraints.get ⟨i, h⟩).func s then statusOK
            else statusVIOLATION,
          hint := if (m.constraints.get ⟨i, h⟩).func s < 0 then
              some ⟨fmt4 (abs ((m.constraints.get ⟨i, h⟩).func s)),
                (m.constraints.get ⟨i, h⟩).name⟩
            else none } := by
      unfold MaatCore.constraint_report
      simp [List.get_eq_getElem, List.getElem_map]
    rw [hget]
    refine ⟨rfl, rfl, ?_, ?_⟩
    · intro hge
      dsimp only
      rw [if_pos hge, if_neg (not_lt.mpr hge)]
      exact ⟨rfl, rfl⟩
    · intro hlt
      dsimp only
      rw [if_neg (not_le.mpr hlt), if_pos hlt]
      refine ⟨rfl, rfl, ?_⟩
      intro hden
      rw [fmt4_eq_self _ hden]

/-- Witness for C3 at a concrete instance, including the exactness branch
for a margin that is a multiple of 1/10000. -/
theorem c3_witness :
    (wC3core.constraint_report ()).length = wC3core.constraints.length ∧
    ∃ h : 1 < wC3core.constraints.length,
      ∃ h2 : 1 < (wC3core.constraint_report ()).length,
        ((wC3core.constraint_report ()).get ⟨1, h2⟩).status =
            statusVIOLATION ∧
        ((wC3core.constraint_report ()).get ⟨1, h2⟩).hint =
          some ⟨abs ((wC3core.constraints.get ⟨1, h⟩).func ()),
            (wC3core.constraints.get ⟨1, h⟩).name⟩ := by
  have h : 1 < wC3core.constraints.length := by simp [wC3core]
  refine ⟨(c3_constraint_report wC3core ()).1, h, ?_⟩
  obtain ⟨h2, _, _, _, hv⟩ := (c3_constraint_report wC3core ()).2 1 h
  have hfun : (wC3core.constraints.get ⟨1, h⟩).func () = -(1/4) := rfl
  have hlt : (wC3core.constraints.get ⟨1, h⟩).func () < 0 := by
    rw [hfun]
    norm_num
  obtain ⟨hst, _, hex⟩ := hv hlt
  have hden : (abs ((wC3core.constraints.get ⟨1, h⟩).func ()) * 10000).den
      = 1 := by
    rw [hfun, abs_neg, abs_of_nonneg (by norm_num : (0:ℚ) ≤ 1/4)]
    have hq : (1/4 : ℚ) * 10000 = ((2500 : ℤ) : ℚ) := by norm_num
    rw [hq, Rat.den_intCast]
  exact ⟨h2, hst, hex hden⟩

/-- C3 counterexample: for margin −1/64 (an exact binary value, so
representable by the Python float) the hint displays 0.0156, which differs
from |margin| = 0.015625, refuting the claimed exact equality. -/
theorem c3_cex :
    ((cxC3core.constraint_report ()).headI).margin < 0 ∧
    ((cxC3core.constraint_report ()).headI).status = statusVIOLATION ∧
    ((cxC3core.constraint_report ()).headI).hint =
      some ⟨39/2500, "r3"⟩ ∧
    (39/2500 : ℚ) ≠ abs (((cxC3core.constraint_report ()).headI).margin) := by
  have habs : abs (-(1/64) : ℚ) = 1/64 := by
    rw [abs_neg, abs_of_nonneg (by norm_num : (0:ℚ) ≤ 1/64)]
  have hfl : ⌊(1/64 : ℚ) * 10000⌋ = 156 := by norm_num
  have hf4 : fmt4 (1/64 : ℚ) = 39/2500 := by
    unfold fmt4 roundHalfEven
    rw [hfl]
    norm_num
  refine ⟨?_, ?_, ?_, ?_⟩
  · show (-(1/64) : ℚ) < 0
    norm_num
  · show (if (0:ℚ) ≤ -(1/64) then statusOK else statusVIOLATION) =
      statusVIOLATION
    rw [if_neg (by norm_num : ¬ ((0:ℚ) ≤ -(1/64)))]
  · show (if (-(1/64) : ℚ) < 0 then
        some (⟨fmt4 (abs (-(1/64) : ℚ)), "r3"⟩ : Hint) else none) =
        some ⟨39/2500, "r3"⟩
    rw [if_pos (by norm_num : (-(1/64) : ℚ) < 0), habs, hf4]
  · show (39/2500 : ℚ) ≠ abs (-(1/64) : ℚ)
    rw [habs]
    norm_num

/-- C7: `Diagnostics.report` returns one `FieldReport` per field in input
order, and each entry's `weighted_value` equals `raw_value * weight`
exactly, `raw_value` being the field's `func` applied to the state. -/
theorem c7_diagnostics_report {State : Type} (fields : List (Field State))
    (s : State) :
    (Diagnostics.report fields s).length = fields.length ∧
    ∀ i : ℕ, ∀ h : i < fields.length,
      ∃ h2 : i < (Diagnostics.report fields s).length,
        ((Diagnostics.report fields s).get ⟨i, h2⟩).name =
            (fields.get ⟨i, h⟩).name ∧
        ((Diagnostics.report fields s).get ⟨i, h2⟩).weight =
            (fields.get ⟨i, h⟩).weight ∧
        ((Diagnostics.report fields s).get ⟨i, h2⟩).raw_value =
            (fields.get ⟨i, h⟩).func s ∧
        ((Diagnostics.report fields s).get ⟨i, h2⟩).weighted_value =
          ((Diagnostics.report fields s).get ⟨i, h2⟩).raw_value *
            ((Diagnostics.report fields s).get ⟨i, h2⟩).weight := by
  constructor
  · simp [Diagnostics.report]
  · intro i h
    have h2 : i < (Diagnostics.report fields s).length := by
      simpa [Diagnostics.report] using h
    refine ⟨h2, ?_⟩
    unfold Diagnostics.report
    simp [List.get_eq_getElem, List.getElem_map]

/-- Witness for C7 at a concrete field list. -/
theorem c7_witness :
    (Diagnostics.report [wC7field] (2:ℚ)).length = [wC7field].length ∧
    ∃ h2 : 0 < (Diagnostics.report [wC7field] (2:ℚ)).length,
      ((Diagnostics.report [wC7field] (2:ℚ)).get ⟨0, h2⟩).weighted_value =
        ((Diagnostics.report [wC7field] (2:ℚ)).get ⟨0, h2⟩).raw_value *
          ((Diagnostics.report [wC7field] (2:ℚ)).get ⟨0, h2⟩).weight := by
  refine ⟨(c7_diagnostics_report [wC7field] 2).1, ?_⟩
  obtain ⟨h2, _, _, _, hw⟩ :=
    (c7_diagnostics_report [wC7field] 2).2 0 (by simp)
  exact ⟨h2, hw⟩

/-- C9: `integrate` and `constraint_report` leave the instance data
unchanged, their results are determined by the four instance components and
the state alone, and a prior `seek` call leaves the instance data (hence
later `integrate`/`constraint_report` results) unchanged. -/
theorem c9_no_mutation {State R : Type} (m m2 : MaatCore State)
    (ls : (List ℚ → ℚ) → List ℚ → List (ℚ × ℚ) → ℕ → String → R)
    (as : (List ℚ → ℚ) → List (ℚ × ℚ) → ℚ → ℕ → ℤ → R)
    (cf : State → Option ℚ) (sf : Point → State) (x0 : X0) (S : ℚ)
    (ua : Bool) (bounds : List (ℚ × ℚ)) (mi : ℕ) (meth : String)
    (seed : Option ℤ) (sc : Bool) (rng : ℤ) (s : State)
    (h1 : m.fields = m2.fields) (h2 : m.constraints = m2.constraints)
    (h3 : m.safety_lambda = m2.safety_lambda)
    (h4 : m.occam_lambda = m2.occam_lambda) :
    (m.integrateRun cf s).2 = m ∧
    (m.constraint_reportRun s).2 = m ∧
    (m.integrateRun cf s).1 = m.integrate cf s ∧
    (m.constraint_reportRun s).1 = m.constraint_report s ∧
    m.integrate cf s = m2.integrate cf s ∧
    m.constraint_report s = m2.constraint_report s ∧
    (m.seek ls as cf sf x0 S ua bounds mi meth seed sc rng).core = m := by
  have hm : m = m2 := by
    cases m
    cases m2
    simp_all
  refine ⟨rfl, rfl, rfl, rfl, by rw [hm], by rw [hm], ?_⟩
  by_cases hb : boundsOk bounds x0.nDim = true
  · cases ua
    · rw [seek_valid_local m ls as cf sf x0 S bounds mi meth seed sc rng hb]
    · rw [seek_valid_anneal m ls as cf sf x0 S bounds mi meth seed sc rng hb]
  · rw [seek_invalid m ls as cf sf x0 S _ bounds mi meth seed sc rng
      (by simpa using hb)]

/-- Witness for C9 at a concrete instance. -/
theorem c9_witness :
    (wC9core.integrateRun cfU ()).2 = wC9core ∧
    (wC9core.seek (fun _ _ _ _ _ => (0:ℕ)) (fun _ _ _ _ _ => 0) cfU
        (fun _ => ()) (X0.scalar 0) 0 false [(0, 1)] 5 ("L-BFGS-B") none
        true 0).core = wC9core := by
  have h := c9_no_mutation wC9core wC9core (fun _ _ _ _ _ => (0:ℕ))
    (fun _ _ _ _ _ => 0) cfU (fun _ => ()) (X0.scalar 0) 0 false [(0, 1)] 5
    ("L-BFGS-B") none true 0 () rfl rfl rfl rfl
  exact ⟨h.1, h.2.2.2.2.2.2⟩

/-- C2: an empty bounds list raises; a single pair with an N > 1-dimensional
point is broadcast to all N dimensions before being handed to either solver;
any other length mismatch raises; and in every error case the error is
produced before the delegated solver or the objective/state function is
consulted (the outcome is independent of both). -/
theorem c2_bounds_contract {State R : Type} (m : MaatCore State)
    (ls ls2 : (List ℚ → ℚ) → List ℚ → List (ℚ × ℚ) → ℕ → String → R)
    (as as2 : (List ℚ → ℚ) → List (ℚ × ℚ) → ℚ → ℕ → ℤ → R)
    (cf : State → Option ℚ) (sf sf2 : Point → State) (x0 : X0) (S : ℚ)
    (ua : Bool) (bounds : List (ℚ × ℚ)) (mi : ℕ) (meth : String)
    (seed : Option ℤ) (sc : Bool) (rng : ℤ) :
    (bounds = [] →
      (m.seek ls as cf sf x0 S ua bounds mi meth seed sc rng).result =
        Except.error errEmptyBounds) ∧
    (bounds.length = 1 → 1 < x0.nDim →
      (m.seek ls as cf sf x0 S false bounds mi meth seed sc rng).result =
        Except.ok (ls (m.objective cf sf x0.isScalarLike sc) x0.toArr
          (List.replicate x0.nDim bounds.headI) mi meth) ∧
      (m.seek ls as cf sf x0 S true bounds mi meth seed sc rng).result =
        Except.ok (as (m.objective cf sf x0.isScalarLike sc)
          (List.replicate x0.nDim bounds.headI) (10 * (1 + S)) mi
          (seedTo seed rng))) ∧
    (bounds.length ≠ x0.nDim → ¬(bounds.length = 1 ∧ 1 < x0.nDim) →
      ∃ e, (m.seek ls as cf sf x0 S ua bounds mi meth seed sc rng).result =
        Except.error e) ∧
    (boundsOk bounds x0.nDim = false →
      (m.seek ls as cf sf x0 S ua bounds mi meth seed sc rng).result =
      (m.seek ls2 as2 cf sf2 x0 S ua bounds mi meth seed sc rng).result) := by
  refine ⟨?_, ?_, ?_, ?_⟩
  · intro hbe
    subst hbe
    rw [seek_invalid m ls as cf sf x0 S ua [] mi meth seed sc rng
      (by simp [boundsOk])]
    rfl
  · intro h1 hn
    have hok : boundsOk bounds x0.nDim = true := by
      simp only [boundsOk, decide_eq_true_eq]
      exact ⟨by omega, Or.inr ⟨h1, hn⟩⟩
    have hbb : broadcastBounds bounds x0.nDim =
        List.replicate x0.nDim bounds.headI := by
      unfold broadcastBounds
      rw [if_pos ⟨h1, hn⟩]
    constructor
    · rw [seek_valid_local m ls as cf sf x0 S bounds mi meth seed sc rng hok,
        hbb]
    · rw [seek_valid_anneal m ls as cf sf x0 S bounds mi meth seed sc rng hok,
        hbb]
  · intro hne hnb
    have hbad : boundsOk bounds x0.nDim = false := by
      simp only [boundsOk, decide_eq_false_iff_not]
      rintro ⟨h0, h1 | h1⟩
      · exact hne h1
      · exact hnb h1
    exact ⟨if bounds.length = 0 then errEmptyBounds else errBoundsLen,
      by rw [seek_invalid m ls as cf sf x0 S ua bounds mi meth seed sc rng
        hbad]⟩
  · intro hbad
    rw [seek_invalid m ls as cf sf x0 S ua bounds mi meth seed sc rng hbad,
      seek_invalid m ls2 as2 cf sf2 x0 S ua bounds mi meth seed sc rng hbad]

/-- Witness for C2: each branch of the contract at a concrete input. -/
theorem c2_witness :
    ((wC2core.seek lsW asW cfU sfW (X0.scalar 0) 0 true [] 5 methW none
        true 0).result = Except.error errEmptyBounds) ∧
    ((wC2core.seek lsW asW cfU sfW (X0.vector [0, 0]) 0 false
        [((0:ℚ), (1:ℚ))] 5 methW none true 0).result =
      Except.ok (lsW (wC2core.objective cfU sfW
          (X0.vector [0, 0]).isScalarLike true)
        (X0.vector [0, 0]).toArr
        (List.replicate (X0.vector [0, 0]).nDim
          ([((0:ℚ), (1:ℚ))]).headI) 5 methW)) ∧
    (∃ e, (wC2core.seek lsW asW cfU sfW (X0.scalar 0) 0 true
        [((0:ℚ), (1:ℚ)), ((2:ℚ), (3:ℚ))] 5 methW none true 0).result =
      Except.error e) ∧
    ((wC2core.seek lsW asW cfU sfW (X0.scalar 0) 0 true [] 5 methW none
        true 0).result =
      (wC2core.seek ls2W as2W cfU sf2W (X0.scalar 0) 0 true [] 5 methW none
        true 0).result) := by
  refine ⟨?_, ?_, ?_, ?_⟩
  · exact (c2_bounds_contract wC2core lsW ls2W asW as2W cfU sfW sf2W
      (X0.scalar 0) 0 true [] 5 methW none true 0).1 rfl
  · exact ((c2_bounds_contract wC2core lsW ls2W asW as2W cfU sfW sf2W
      (X0.vector [0, 0]) 0 false [((0:ℚ), (1:ℚ))] 5 methW none true 0).2.1
      rfl (by decide)).1
  · exact (c2_bounds_contract wC2core lsW ls2W asW as2W cfU sfW sf2W
      (X0.scalar 0) 0 true [((0:ℚ), (1:ℚ)), ((2:ℚ), (3:ℚ))] 5 methW none
      true 0).2.2.1 (by decide) (by decide)
  · exact (c2_bounds_contract wC2core lsW ls2W asW as2W cfU sfW sf2W
      (X0.scalar 0) 0 true [] 5 methW none true 0).2.2.2 (by decide)

/-- C6 (amended): the calling convention is chosen from the shape of `x0`
together with the `scalar_compat` flag: when `scalar_compat` is true (its
default) and `x0` is a bare number or has exactly one element, the state
function receives a plain real (`x_vec[0]`) at every objective evaluation;
otherwise — including any call with `scalar_compat := false` — it receives
the full candidate point as an ordered sequence of reals.  `seek` hands
exactly this objective to whichever solver it dispatches to. -/
theorem c6_mode_dispatch {State R : Type} (m : MaatCore State)
    (ls : (List ℚ → ℚ) → List ℚ → List (ℚ × ℚ) → ℕ → String → R)
    (as : (List ℚ → ℚ) → List (ℚ × ℚ) → ℚ → ℕ → ℤ → R)
    (cf : State → Option ℚ) (sf : Point → State) (x0 : X0) (S : ℚ)
    (bounds : List (ℚ × ℚ)) (mi : ℕ) (meth : String) (seed : Option ℤ)
    (sc : Bool) (rng : ℤ) :
    (x0.isScalarLike = true ↔
      (∃ q, x0 = X0.scalar q) ∨ (∃ q, x0 = X0.vector [q])) ∧
    (sc = true → x0.isScalarLike = true → ∀ xa : List ℚ,
      m.objective cf sf x0.isScalarLike sc xa =
        m.integrate cf (sf (Point.scalar xa.headI))) ∧
    ((sc = false ∨ x0.isScalarLike = false) → ∀ xa : List ℚ,
      m.objective cf sf x0.isScalarLike sc xa =
        m.integrate cf (sf (Point.vector xa))) ∧
    (boundsOk bounds x0.nDim = true →
      (m.seek ls as cf sf x0 S false bounds mi meth seed sc rng).result =
        Except.ok (ls (m.objective cf sf x0.isScalarLike sc) x0.toArr
          (broadcastBounds bounds x0.nDim) mi meth) ∧
      (m.seek ls as cf sf x0 S true bounds mi meth seed sc rng).result =
        Except.ok (as (m.objective cf sf x0.isScalarLike sc)
          (broadcastBounds bounds x0.nDim) (10 * (1 + S)) mi
          (seedTo seed rng))) := by
  refine ⟨?_, ?_, ?_, ?_⟩
  · cases x0 with
    | scalar q =>
      constructor
      · intro _
        exact Or.inl ⟨q, rfl⟩
      · intro _
        rfl
    | vector xs =>
      constructor
      · intro hl
        right
        have hx : xs.length = 1 := by simpa [X0.isScalarLike] using hl
        obtain ⟨a, ha⟩ := List.length_eq_one.mp hx
        exact ⟨a, by rw [ha]⟩
      · intro h
        rcases h with ⟨q, hq⟩ | ⟨q, hq⟩
        · exact X0.noConfusion hq
        · have hx : xs = [q] := by injection hq
          simp [X0.isScalarLike, hx]
  · intro hsc hssl xa
    simp [MaatCore.objective, hsc, hssl]
  · intro h xa
    rcases h with h | h <;> simp [MaatCore.objective, h]
  · intro hok
    constructor
    · rw [seek_valid_local m ls as cf sf x0 S bounds mi meth seed sc rng hok]
    · rw [seek_valid_anneal m ls as cf sf x0 S bounds mi meth seed sc rng hok]

/-- Witness for C6 at a concrete scalar-mode call. -/
theorem c6_witness :
    (X0.scalar 3).isScalarLike = true ∧
    wC6core.objective cfQ sfC6 (X0.scalar 3).isScalarLike true [3] =
      wC6core.integrate cfQ (sfC6 (Point.scalar ([(3:ℚ)].headI))) := by
  refine ⟨rfl, ?_⟩
  exact (c6_mode_dispatch wC6core evalLs (fun _ _ _ _ _ => (0:ℚ)) cfQ sfC6
    (X0.scalar 3) 0 [((0:ℚ), 10)] 5 methW none true 0).2.1 rfl rfl [3]

/-- C6 counterexample: with `scalar_compat := false` and a bare-number `x0`,
the objective that `seek` hands to the solver passes the full vector to the
state function, not a plain real — the convention is not chosen solely from
the shape of `x0`. -/
theorem c6_cex :
    (X0.scalar 5).isScalarLike = true ∧
    (cxC6core.seek evalLs (fun _ _ _ _ _ => 0) cfQ sfC6 (X0.scalar 5) 0
        false [((0:ℚ), 10)] 5 methW none false 0).result ≠
      Except.ok (cxC6core.integrate cfQ (sfC6 (Point.scalar
        ((X0.scalar 5).toArr.headI)))) := by
  refine ⟨rfl, ?_⟩
  have hok : boundsOk [((0:ℚ), 10)] (X0.scalar 5).nDim = true := by decide
  rw [seek_valid_local cxC6core evalLs (fun _ _ _ _ _ => 0) cfQ sfC6
    (X0.scalar 5) 0 [((0:ℚ), 10)] 5 methW none false 0 hok]
  norm_num [evalLs, MaatCore.objective, MaatCore.integrate, Field.value,
    cxC6core, sfC6, cfQ, X0.toArr]

/-- C8: with a fixed non-None seed and identical arguments, two
annealing-mode `seek` invocations return identical results whatever the
pre-existing global RNG state was: the RNG is re-seeded deterministically
from the caller-supplied seed before the delegated global search runs. -/
theorem c8_anneal_reproducible {State R : Type} (m : MaatCore State)
    (ls : (List ℚ → ℚ) → List ℚ → List (ℚ × ℚ) → ℕ → String → R)
    (as : (List ℚ → ℚ) → List (ℚ × ℚ) → ℚ → ℕ → ℤ → R)
    (cf : State → Option ℚ) (sf : Point → State) (x0 : X0) (S : ℚ)
    (bounds : List (ℚ × ℚ)) (mi : ℕ) (meth : String) (k : ℤ) (sc : Bool)
    (rng1 rng2 : ℤ) :
    (m.seek ls as cf sf x0 S true bounds mi meth (some k) sc rng1).result =
    (m.seek ls as cf sf x0 S true bounds mi meth (some k) sc rng2).result := by
  by_cases hb : boundsOk bounds x0.nDim = true
  · rw [seek_valid_anneal m ls as cf sf x0 S bounds mi meth (some k) sc rng1
      hb, seek_valid_anneal m ls as cf sf x0 S bounds mi meth (some k) sc
      rng2 hb]
    rfl
  · rw [seek_invalid m ls as cf sf x0 S true bounds mi meth (some k) sc rng1
      (by simpa using hb), seek_invalid m ls as cf sf x0 S true bounds mi
      meth (some k) sc rng2 (by simpa using hb)]

end Maat
